import Mathlib

/-!
Verification of the gold-ETF comparison front end (static/app.js).

The whole comparison logic of the repository lives in the function
displayResults of static/app.js.  We embed it shallowly:

* JavaScript numbers are modelled as exact rationals; a value that is
  JavaScript undefined or NaN is modelled as Option.none.  The two are
  conflated because every operation the code applies to them agrees on
  them: both are falsy, both compare false under < and >, and arithmetic
  on either yields NaN (none).
* JavaScript truthiness of a number is "present and nonzero".
* Array.prototype.sort with the comparator (a, b) => a.key - b.key is a
  stable sort by key; we model it with List.insertionSort keyed by optLe,
  which is the stable sort for a le-style relation.  When a key is NaN
  the comparator is inconsistent and the ECMAScript result order is
  implementation-defined; optLe places none first, one of the allowed
  outcomes (no theorem below depends on that choice).
* The one place the code can throw on degraded data
  (priceDiff.percent.toFixed(2), app.js line 451) is modelled in the
  Except monad.
-/

/-- One fund record as delivered by the backend (FundQuote in the spec).
Numeric fields may be absent, as in the JSON payload. -/
structure Etf where
  symbol : String
  name : String
  current_price : Option ℚ
  change_percent : Option ℚ
  volume : Option ℚ
  nav_price : Option ℚ
  expense_ratio : Option ℚ
  stopaj_rate : Option ℚ
  gold_backing_grams : Option ℚ
deriving DecidableEq, Repr

/-- One entry of data.price_difference, keyed by fund symbol. -/
structure PriceDiff where
  per_gram_price : Option ℚ
  absolute : Option ℚ
  percent : Option ℚ
deriving DecidableEq, Repr

/-- The payload of GET /api/gold-etf/compare as consumed by displayResults. -/
structure CompareData where
  all_etfs : List Etf
  price_difference : List (String × PriceDiff)
  recommendation : String
  spot_gram_gold_price : Option ℚ
deriving DecidableEq, Repr

/-- JavaScript truthiness of a numeric field: undefined, NaN and 0 are
falsy, every other number is truthy. -/
def truthy : Option ℚ → Bool
  | none => false
  | some q => q != 0

/-- JavaScript comparison v > b for a possibly absent v: undefined > b and
NaN > b are false. -/
def jgt (v : Option ℚ) (b : ℚ) : Bool :=
  match v with
  | none => false
  | some a => a > b

/-- JavaScript division on possibly absent operands.  An absent operand
gives NaN (none).  Division by exactly zero gives Infinity or NaN in
JavaScript; every division site in app.js is guarded by a truthiness or
positivity check on the denominator, so we also map it to none. -/
def jdiv : Option ℚ → Option ℚ → Option ℚ
  | some a, some b => if b = 0 then none else some (a / b)
  | _, _ => none

/-- JavaScript subtraction: absent operand gives NaN (none). -/
def jsub : Option ℚ → Option ℚ → Option ℚ
  | some a, some b => some (a - b)
  | _, _ => none

/-- JavaScript multiplication by a constant: absent operand gives NaN. -/
def jmul (v : Option ℚ) (c : ℚ) : Option ℚ :=
  match v with
  | some a => some (a * c)
  | none => none

/-- Key order used to model the sort comparator
(a, b) => a.perGramPrice - b.perGramPrice.  On present keys it is the
rational order; an absent (NaN) key is placed first (see header note). -/
def optLe : Option ℚ → Option ℚ → Prop
  | none, _ => True
  | some _, none => False
  | some a, some b => a ≤ b

instance : DecidableRel optLe := fun a b =>
  match a, b with
  | none, _ => inferInstanceAs (Decidable True)
  | some _, none => inferInstanceAs (Decidable False)
  | some a, some b => inferInstanceAs (Decidable (a ≤ b))

/-- An element of etfsWithPerGram (app.js lines 57-63). -/
structure PerGramEntry where
  etf : Etf
  perGramPrice : Option ℚ
deriving DecidableEq, Repr

/-- Sort key relation on PerGramEntry. -/
def pgmLe (a b : PerGramEntry) : Prop :=
  optLe a.perGramPrice b.perGramPrice

instance : DecidableRel pgmLe := fun a b =>
  inferInstanceAs (Decidable (optLe a.perGramPrice b.perGramPrice))

/-- app.js lines 57-63: filter the funds to those with truthy
gold_backing_grams, attach perGramPrice = current_price /
gold_backing_grams, and stable-sort ascending by it. -/
def etfsWithPerGram (d : CompareData) : List PerGramEntry :=
  List.insertionSort pgmLe
    ((d.all_etfs.filter (fun e => truthy e.gold_backing_grams)).map
      (fun e => { etf := e, perGramPrice := jdiv e.current_price e.gold_backing_grams }))

/-- app.js line 65: per-gram price of the head of etfsWithPerGram, or null. -/
def cheapestPerGramPrice (d : CompareData) : Option ℚ :=
  match etfsWithPerGram d with
  | [] => none
  | x :: _ => x.perGramPrice

/-- app.js line 66: symbol of the head of etfsWithPerGram, or null. -/
def cheapestEtfSymbol (d : CompareData) : Option String :=
  match etfsWithPerGram d with
  | [] => none
  | x :: _ => some x.etf.symbol

/-- app.js lines 71-76: the ZGOLD/GLDTR base value, computed only when both
funds are found and both have current_price > 0. -/
def baseValue (d : CompareData) : Option ℚ :=
  match d.all_etfs.find? (fun e => e.symbol == "ZGOLD"),
        d.all_etfs.find? (fun e => e.symbol == "GLDTR") with
  | some zgoldEtf, some gldtrEtf =>
      if jgt zgoldEtf.current_price 0 && jgt gldtrEtf.current_price 0 then
        jdiv gldtrEtf.current_price zgoldEtf.current_price
      else none
  | _, _ => none

/-- app.js line 96: the filter of etfsWithBaseValue — current_price > 0,
gold_backing_grams truthy and gold_backing_grams > 0. -/
def qualifies (e : Etf) : Bool :=
  jgt e.current_price 0 && truthy e.gold_backing_grams && jgt e.gold_backing_grams 0

/-- The formula label attached at app.js lines 108-112. -/
def formulaFor (s : String) : String :=
  if s = "ZGOLD" then "ZGOLD Fiyati = Altin karsiligi x Gram altin fiyati"
  else if s = "GLDTR" then "GLDTR Fiyati = Altin karsiligi x Gram altin fiyati"
  else "ETF Fiyati = Altin karsiligi x Gram altin fiyati"

/-- An element of etfsWithBaseValue (app.js lines 97-114). -/
structure BVEntry where
  etf : Etf
  baseValue : Option ℚ
  perGramPrice : Option ℚ
  formula : String
deriving DecidableEq, Repr

/-- Sort key relation on BVEntry. -/
def bvLe (a b : BVEntry) : Prop :=
  optLe a.perGramPrice b.perGramPrice

instance : DecidableRel bvLe := fun a b =>
  inferInstanceAs (Decidable (optLe a.perGramPrice b.perGramPrice))

/-- app.js lines 97-114: the map body of etfsWithBaseValue. -/
def mkBVEntry (e : Etf) : BVEntry :=
  { etf := e
    baseValue := e.gold_backing_grams
    perGramPrice := jdiv e.current_price e.gold_backing_grams
    formula := formulaFor e.symbol }

/-- app.js lines 95-114 before the sort: filter by qualifies, then map. -/
def bvUnsorted (d : CompareData) : List BVEntry :=
  (d.all_etfs.filter qualifies).map mkBVEntry

/-- app.js lines 95-115: the ranked list behind the comparison table,
sorted ascending by per-gram price (stable). -/
def etfsWithBaseValue (d : CompareData) : List BVEntry :=
  List.insertionSort bvLe (bvUnsorted d)

/-- One rendered row of the comparison table (loop at app.js lines 197-285). -/
structure TableRow where
  symbol : String
  isBest : Bool
  baseValue : Option ℚ
  perGramPrice : Option ℚ
  priceDiffPercent : Option ℚ
  priceDiffAbsolute : Option ℚ
deriving DecidableEq, Repr

/-- The body of the table loop for one item at position index, with
bestValueEtf the head of etfsWithBaseValue (app.js lines 197-222).  The
per-gram price is recomputed from the raw fields at line 202. -/
def mkTableRow (bestValueEtf : BVEntry) (index : Nat) (item : BVEntry) : TableRow :=
  let isBest := index == 0
  let perGramPrice := jdiv item.etf.current_price item.etf.gold_backing_grams
  let cheapest := bestValueEtf.perGramPrice
  { symbol := item.etf.symbol
    isBest := isBest
    baseValue := item.baseValue
    perGramPrice := perGramPrice
    priceDiffPercent :=
      if isBest then some 0 else jmul (jdiv (jsub perGramPrice cheapest) cheapest) 100
    priceDiffAbsolute :=
      if isBest then some 0 else jsub perGramPrice cheapest }

/-- The table loop, carrying the running index. -/
def tableRowsAux (bestValueEtf : BVEntry) (index : Nat) : List BVEntry → List TableRow
  | [] => []
  | item :: rest => mkTableRow bestValueEtf index item :: tableRowsAux bestValueEtf (index + 1) rest

/-- All rendered table rows of one call to displayResults. -/
def tableRows (d : CompareData) : List TableRow :=
  match etfsWithBaseValue d with
  | [] => []
  | bestValueEtf :: rest => tableRowsAux bestValueEtf 0 (bestValueEtf :: rest)

/-- What the baseValueComparison area shows: the no-data message branch of
app.js lines 130-138, or the table plus the best-value summary. -/
inductive TableView where
  | noData : TableView
  | table (rows : List TableRow) (bestValueEtf : BVEntry) : TableView
deriving DecidableEq, Repr

/-- app.js lines 129-370: branch on whether any fund qualified. -/
def renderTable (d : CompareData) : TableView :=
  match etfsWithBaseValue d with
  | [] => TableView.noData
  | bestValueEtf :: _ => TableView.table (tableRows d) bestValueEtf

/-- app.js lines 311-313: the best-value summary recomputes, for every
non-head ranked fund, its absolute and percent gap to the head. -/
def summaryDiffs (d : CompareData) : List (Option ℚ × Option ℚ) :=
  match etfsWithBaseValue d with
  | [] => []
  | bestValueEtf :: rest =>
      rest.map (fun item =>
        (jsub item.perGramPrice bestValueEtf.perGramPrice,
         jmul (jdiv (jsub item.perGramPrice bestValueEtf.perGramPrice)
                bestValueEtf.perGramPrice) 100))

/-- app.js line 390: per-gram price shown on a card, null unless the fund
has truthy gold backing. -/
def cardPerGram (e : Etf) : Option ℚ :=
  if truthy e.gold_backing_grams then jdiv e.current_price e.gold_backing_grams else none

/-- app.js lines 394-396: a card is marked cheapest when the fund has
truthy backing, cheapestPerGramPrice is truthy, and the card per-gram
price is within 0.0001 of it.  A NaN per-gram price compares false. -/
def cardIsCheapest (cheapest : Option ℚ) (e : Etf) : Bool :=
  if truthy e.gold_backing_grams && truthy cheapest then
    match cardPerGram e, cheapest with
    | some pg, some c => |pg - c| < 1 / 10000
    | _, _ => false
  else false

/-- Model of number.toFixed(digits) applied to a possibly absent field:
calling it on undefined throws a TypeError. -/
def toFixedOpt (v : Option ℚ) : Except String ℚ :=
  match v with
  | some q => Except.ok q
  | none => Except.error "TypeError: cannot read toFixed of undefined"

/-- One rendered fund card (loop at app.js lines 388-509). -/
structure CardView where
  symbol : String
  isCheapest : Bool
  perGramPrice : Option ℚ
  shownPrice : Option ℚ
  changeShown : ℚ
  diffBlock : Option (Option ℚ × ℚ)
deriving DecidableEq, Repr

/-- The body of the card loop for one fund (app.js lines 388-506).  The
price-difference block is guarded on priceDiff, priceDiffPerGram and
cheapestPerGramPrice being truthy (line 447), but inside the block
priceDiff.percent is dereferenced without its own guard (line 451), which
throws when the field is absent. -/
def renderCard (cheapest : Option ℚ) (priceDifference : List (String × PriceDiff))
    (e : Etf) : Except String CardView := do
  let perGramPrice := cardPerGram e
  let isCheapest := cardIsCheapest cheapest e
  let priceDiff := priceDifference.lookup e.symbol
  let priceDiffPerGram :=
    match priceDiff with
    | some pd => if truthy pd.per_gram_price then pd.per_gram_price else none
    | none => none
  let diffBlock ←
    match priceDiff with
    | some pd =>
        if truthy priceDiffPerGram && truthy cheapest then do
          let pct ← toFixedOpt pd.percent
          pure (some (jsub priceDiffPerGram cheapest, pct))
        else pure none
    | none => pure none
  pure { symbol := e.symbol
         isCheapest := isCheapest
         perGramPrice := perGramPrice
         shownPrice := if truthy perGramPrice then perGramPrice else e.current_price
         changeShown := e.change_percent.getD 0
         diffBlock := diffBlock }

/-- The card loop over a fund list, in order; an exception thrown on one
card aborts the remaining iterations. -/
def renderCardsAux (cheapest : Option ℚ) (priceDifference : List (String × PriceDiff)) :
    List Etf → Except String (List CardView)
  | [] => Except.ok []
  | e :: rest =>
      match renderCard cheapest priceDifference e with
      | Except.error s => Except.error s
      | Except.ok v =>
          match renderCardsAux cheapest priceDifference rest with
          | Except.error s => Except.error s
          | Except.ok vs => Except.ok (v :: vs)

/-- The full card loop over data.all_etfs, in input order. -/
def renderCards (d : CompareData) : Except String (List CardView) :=
  renderCardsAux (cheapestPerGramPrice d) d.price_difference d.all_etfs

/-- The pair of user-visible outputs of one displayResults call that carry
the comparison: the table area and the card list. -/
def renderAll (d : CompareData) : TableView × Except String (List CardView) :=
  (renderTable d, renderCards d)

/-- First minimum of a list under a reflexive-style relation: on ties the
earlier element wins.  This is the element a stable ascending sort puts at
the head. -/
def firstMinBy {α : Type} (r : α → α → Prop) [DecidableRel r] : List α → Option α
  | [] => none
  | a :: l =>
      match firstMinBy r l with
      | none => some a
      | some m => if r a m then some a else some m

instance : IsTotal (Option ℚ) optLe where
  total a b :=
    match a, b with
    | none, _ => Or.inl trivial
    | some _, none => Or.inr trivial
    | some a, some b => le_total a b

instance : IsTrans (Option ℚ) optLe where
  trans a b c hab hbc :=
    match a, b, c with
    | none, _, _ => trivial
    | some _, some _, none => absurd hbc not_false
    | some _, none, _ => absurd hab not_false
    | some _, some _, some _ => le_trans hab hbc

instance : IsTotal BVEntry bvLe where
  total a b := IsTotal.total (r := optLe) a.perGramPrice b.perGramPrice

instance : IsTrans BVEntry bvLe where
  trans a b c hab hbc := IsTrans.trans (r := optLe) _ _ _ hab hbc

instance : IsTotal PerGramEntry pgmLe where
  total a b := IsTotal.total (r := optLe) a.perGramPrice b.perGramPrice

instance : IsTrans PerGramEntry pgmLe where
  trans a b c hab hbc := IsTrans.trans (r := optLe) _ _ _ hab hbc

/-- Test-data constructor: a fund with the given symbol, price and gold
backing, every other field absent. -/
def mkEtf (s : String) (price backing : Option ℚ) : Etf :=
  { symbol := s, name := s, current_price := price, change_percent := none,
    volume := none, nav_price := none, expense_ratio := none,
    stopaj_rate := none, gold_backing_grams := backing }

/-- Test-data constructor: a payload with the given funds and
price-difference map and no spot price. -/
def mkData (etfs : List Etf) (pd : List (String × PriceDiff)) : CompareData :=
  { all_etfs := etfs, price_difference := pd, recommendation := "", spot_gram_gold_price := none }

/-- Two qualifying funds with equal per-gram price (100/2 = 100/2 = 50). -/
def dTie : CompareData :=
  mkData [mkEtf "AAA" (some 100) (some 2), mkEtf "BBB" (some 100) (some 2)] []

/-- A fund with negative gold backing and positive price. -/
def eNegBack : Etf := mkEtf "AAA" (some 100) (some (-1))

/-- A payload whose only fund has negative gold backing. -/
def dNegBack : CompareData := mkData [eNegBack] []

/-- Two qualifying funds with distinct per-gram prices, cheaper one second
in input order: AAA at 120/2 = 60, BBB at 100/2 = 50. -/
def dTwo : CompareData :=
  mkData [mkEtf "AAA" (some 120) (some 2), mkEtf "BBB" (some 100) (some 2)] []

/-- A degraded price_difference entry: per_gram_price present, percent
absent. -/
def pdNoPercent : PriceDiff :=
  { per_gram_price := some 55, absolute := none, percent := none }

/-- A qualifying fund whose price_difference entry carries per_gram_price
but no percent field. -/
def dNoPercent : CompareData :=
  mkData [mkEtf "AAA" (some 100) (some 2)] [("AAA", pdNoPercent)]

/-- A fund with negative price but positive backing. -/
def eNegPrice : Etf := mkEtf "AAA" (some (-5)) (some 2)

/-- A payload whose only fund has negative price but positive backing, so
that no fund qualifies for the table ranking. -/
def dNegPrice : CompareData := mkData [eNegPrice] []

/-- The empty payload. -/
def dEmpty : CompareData := mkData [] []

/-- A payload holding ZGOLD and GLDTR with positive prices. -/
def dZG : CompareData :=
  mkData [mkEtf "ZGOLD" (some 30) (some 1), mkEtf "GLDTR" (some 40) (some 1)] []

/-! ## Helper lemmas -/

theorem firstMinBy_eq_none {α : Type} (r : α → α → Prop) [DecidableRel r] :
    ∀ l : List α, firstMinBy r l = none ↔ l = [] := by
  intro l
  cases l with
  | nil => simp [firstMinBy]
  | cons a l =>
      constructor
      · intro h
        rw [firstMinBy] at h
        cases hl : firstMinBy r l with
        | none => rw [hl] at h; exact absurd h (by simp)
        | some m => rw [hl] at h; by_cases hr : r a m <;> simp [hr] at h
      · intro h; exact absurd h (by simp)

theorem head_insertionSort {α : Type} (r : α → α → Prop) [DecidableRel r] :
    ∀ l : List α, (List.insertionSort r l).head? = firstMinBy r l := by
  intro l
  induction l with
  | nil => rfl
  | cons a l ih =>
      show (List.orderedInsert r a (List.insertionSort r l)).head? = _
      cases h : List.insertionSort r l with
      | nil =>
          have hl : l = [] := by
            have hp := List.perm_insertionSort r l
            rw [h] at hp
            exact hp.symm.eq_nil
          subst hl
          simp [List.orderedInsert, firstMinBy]
      | cons b t =>
          rw [h] at ih
          have hfm : firstMinBy r l = some b := by simpa using ih.symm
          rw [firstMinBy, hfm]
          by_cases hr : r a b
          · simp [List.orderedInsert, hr]
          · simp [List.orderedInsert, hr]

theorem firstMinBy_mem {α : Type} (r : α → α → Prop) [DecidableRel r] :
    ∀ (l : List α) (m : α), firstMinBy r l = some m → m ∈ l := by
  intro l
  induction l with
  | nil => intro m h; exact absurd h (by simp [firstMinBy])
  | cons a l ih =>
      intro m h
      rw [firstMinBy] at h
      cases hl : firstMinBy r l with
      | none =>
          rw [hl] at h
          simp at h
          simp [h]
      | some m' =>
          rw [hl] at h
          by_cases hr : r a m'
          · simp [hr] at h; simp [h]
          · simp [hr] at h
            exact List.mem_cons_of_mem a (h ▸ ih m' hl)

theorem total_refl {α : Type} (r : α → α → Prop) [IsTotal α r] (a : α) : r a a :=
  (IsTotal.total (r := r) a a).elim id id

theorem firstMinBy_min {α : Type} (r : α → α → Prop) [DecidableRel r]
    [IsTotal α r] [IsTrans α r] :
    ∀ (l : List α) (m : α), firstMinBy r l = some m → ∀ x ∈ l, r m x := by
  intro l
  induction l with
  | nil => intro m h; exact absurd h (by simp [firstMinBy])
  | cons a l ih =>
      intro m h x hx
      rw [firstMinBy] at h
      cases hl : firstMinBy r l with
      | none =>
          rw [hl] at h
          simp only [Option.some.injEq] at h
          subst h
          have hlnil : l = [] := (firstMinBy_eq_none r l).mp hl
          subst hlnil
          rcases List.mem_singleton.mp hx with rfl
          exact total_refl r x
      | some m' =>
          rw [hl] at h
          dsimp only at h
          by_cases hr : r a m'
          · rw [if_pos hr] at h
            simp only [Option.some.injEq] at h
            subst h
            rcases List.mem_cons.mp hx with rfl | hx'
            · exact total_refl r x
            · exact IsTrans.trans _ _ _ hr (ih m' hl x hx')
          · rw [if_neg hr] at h
            simp only [Option.some.injEq] at h
            subst h
            rcases List.mem_cons.mp hx with rfl | hx'
            · exact (IsTotal.total (r := r) m' x).resolve_right hr
            · exact ih m' hl x hx'

theorem firstMinBy_first {α : Type} (r : α → α → Prop) [DecidableRel r] :
    ∀ (l : List α) (m : α), firstMinBy r l = some m →
      ∃ l₁ l₂, l = l₁ ++ m :: l₂ ∧ ∀ x ∈ l₁, ¬ r x m := by
  intro l
  induction l with
  | nil => intro m h; exact absurd h (by simp [firstMinBy])
  | cons a l ih =>
      intro m h
      rw [firstMinBy] at h
      cases hl : firstMinBy r l with
      | none =>
          rw [hl] at h
          simp only [Option.some.injEq] at h
          subst h
          have hlnil : l = [] := (firstMinBy_eq_none r l).mp hl
          subst hlnil
          exact ⟨[], [], rfl, by simp⟩
      | some m' =>
          rw [hl] at h
          dsimp only at h
          by_cases hr : r a m'
          · rw [if_pos hr] at h
            simp only [Option.some.injEq] at h
            subst h
            exact ⟨[], l, rfl, by simp⟩
          · rw [if_neg hr] at h
            simp only [Option.some.injEq] at h
            subst h
            rcases ih m' hl with ⟨l₁, l₂, heq, hfirst⟩
            refine ⟨a :: l₁, l₂, by simp [heq], ?_⟩
            intro x hx
            rcases List.mem_cons.mp hx with rfl | hx'
            · exact hr
            · exact hfirst x hx'

theorem mem_etfsWithBaseValue {d : CompareData} {entry : BVEntry} :
    entry ∈ etfsWithBaseValue d ↔ entry ∈ bvUnsorted d :=
  List.mem_insertionSort bvLe

theorem mem_bvUnsorted {d : CompareData} {entry : BVEntry} :
    entry ∈ bvUnsorted d ↔
      ∃ e, e ∈ d.all_etfs ∧ qualifies e = true ∧ entry = mkBVEntry e := by
  constructor
  · intro h
    rcases List.mem_map.mp h with ⟨e, he, rfl⟩
    rcases List.mem_filter.mp he with ⟨he1, he2⟩
    exact ⟨e, he1, he2, rfl⟩
  · rintro ⟨e, he, hq, rfl⟩
    exact List.mem_map.mpr ⟨e, List.mem_filter.mpr ⟨he, hq⟩, rfl⟩

theorem qualifies_fields {e : Etf} (h : qualifies e = true) :
    ∃ p g, e.current_price = some p ∧ 0 < p ∧
      e.gold_backing_grams = some g ∧ 0 < g := by
  rcases e with ⟨s, n, cp, ch, vo, nv, ex, st, gb⟩
  simp only [qualifies, jgt, truthy, Bool.and_eq_true] at h
  rcases h with ⟨⟨h1, _⟩, h3⟩
  cases cp with
  | none => exact absurd h1 (by simp)
  | some p =>
      cases gb with
      | none => exact absurd h3 (by simp)
      | some g =>
          refine ⟨p, g, rfl, ?_, rfl, ?_⟩
          · simpa using h1
          · simpa using h3

theorem bv_entry_fields {d : CompareData} {entry : BVEntry}
    (h : entry ∈ etfsWithBaseValue d) :
    ∃ p g, entry.etf.current_price = some p ∧ 0 < p ∧
      entry.etf.gold_backing_grams = some g ∧ 0 < g ∧
      entry.baseValue = some g ∧
      entry.perGramPrice = some (p / g) ∧ 0 < p / g := by
  rcases mem_bvUnsorted.mp (mem_etfsWithBaseValue.mp h) with ⟨e, _, hq, rfl⟩
  rcases qualifies_fields hq with ⟨p, g, hp, hp0, hg, hg0⟩
  refine ⟨p, g, hp, hp0, hg, hg0, ?_, ?_, div_pos hp0 hg0⟩
  · simp [mkBVEntry, hg]
  · simp [mkBVEntry, hp, hg, jdiv, ne_of_gt hg0]

theorem sorted_etfsWithBaseValue (d : CompareData) :
    List.Sorted bvLe (etfsWithBaseValue d) :=
  List.sorted_insertionSort bvLe (bvUnsorted d)

theorem head_le_of_etfsWithBaseValue {d : CompareData} {best : BVEntry} {rest : List BVEntry}
    (h : etfsWithBaseValue d = best :: rest) :
    ∀ entry ∈ etfsWithBaseValue d, bvLe best entry := by
  intro entry hmem
  have hs := sorted_etfsWithBaseValue d
  rw [h] at hs hmem
  rcases List.mem_cons.mp hmem with rfl | hmem'
  · exact total_refl bvLe entry
  · exact List.rel_of_sorted_cons hs entry hmem'

theorem tableRowsAux_mem {bestValueEtf : BVEntry} :
    ∀ (l : List BVEntry) (i : Nat) (row : TableRow), row ∈ tableRowsAux bestValueEtf i l →
      ∃ k item, item ∈ l ∧ row = mkTableRow bestValueEtf k item ∧ i ≤ k := by
  intro l
  induction l with
  | nil => intro i row h; exact absurd h (by simp [tableRowsAux])
  | cons item rest ih =>
      intro i row h
      rw [tableRowsAux] at h
      rcases List.mem_cons.mp h with rfl | h'
      · exact ⟨i, item, List.mem_cons_self item rest, rfl, le_refl i⟩
      · rcases ih (i + 1) row h' with ⟨k, item', hmem, heq, hk⟩
        exact ⟨k, item', List.mem_cons_of_mem item hmem, heq, le_trans (Nat.le_succ i) hk⟩

theorem mkTableRow_isBest (bestValueEtf : BVEntry) (i : Nat) (item : BVEntry) :
    (mkTableRow bestValueEtf i item).isBest = (i == 0) := rfl

theorem tableRowsAux_countP_pos {bestValueEtf : BVEntry} :
    ∀ (l : List BVEntry) (i : Nat), 1 ≤ i →
      (tableRowsAux bestValueEtf i l).countP (fun row => row.isBest) = 0 := by
  intro l
  induction l with
  | nil => intro i _; rfl
  | cons item rest ih =>
      intro i hi
      rw [tableRowsAux, List.countP_cons]
      have h1 : (mkTableRow bestValueEtf i item).isBest = false := by
        rw [mkTableRow_isBest]
        simp [Nat.ne_of_gt hi]
      rw [ih (i + 1) (le_trans hi (Nat.le_succ i))]
      simp [h1]

theorem tableRows_countP (d : CompareData) {best : BVEntry} {rest : List BVEntry}
    (h : etfsWithBaseValue d = best :: rest) :
    (tableRows d).countP (fun row => row.isBest) = 1 := by
  rw [tableRows, h]
  dsimp only
  rw [tableRowsAux, List.countP_cons]
  rw [tableRowsAux_countP_pos rest 1 (le_refl 1)]
  simp [mkTableRow_isBest]

theorem tableRows_mem {d : CompareData} {best : BVEntry} {rest : List BVEntry}
    (h : etfsWithBaseValue d = best :: rest) {row : TableRow} (hrow : row ∈ tableRows d) :
    row = mkTableRow best 0 best ∨
      ∃ k item, item ∈ rest ∧ row = mkTableRow best k item ∧ 1 ≤ k := by
  rw [tableRows, h] at hrow
  dsimp only at hrow
  rw [tableRowsAux] at hrow
  rcases List.mem_cons.mp hrow with rfl | h'
  · exact Or.inl rfl
  · rcases tableRowsAux_mem rest 1 row h' with ⟨k, item, hmem, heq, hk⟩
    exact Or.inr ⟨k, item, hmem, heq, hk⟩

theorem mkTableRow_symbol (bestValueEtf : BVEntry) (i : Nat) (item : BVEntry) :
    (mkTableRow bestValueEtf i item).symbol = item.etf.symbol := rfl

theorem tableRowsAux_map_symbol (bestValueEtf : BVEntry) :
    ∀ (l : List BVEntry) (i : Nat),
      (tableRowsAux bestValueEtf i l).map (fun row => row.symbol) =
        l.map (fun item => item.etf.symbol) := by
  intro l
  induction l with
  | nil => intro i; rfl
  | cons item rest ih =>
      intro i
      rw [tableRowsAux, List.map_cons, List.map_cons, mkTableRow_symbol, ih (i + 1)]

theorem tableRows_map_symbol (d : CompareData) :
    (tableRows d).map (fun row => row.symbol) =
      (etfsWithBaseValue d).map (fun item => item.etf.symbol) := by
  rw [tableRows]
  cases h : etfsWithBaseValue d with
  | nil => rfl
  | cons best rest => rw [tableRowsAux_map_symbol]

theorem bvUnsorted_map_symbol (d : CompareData) :
    (bvUnsorted d).map (fun item => item.etf.symbol) =
      (d.all_etfs.filter qualifies).map (fun e => e.symbol) := by
  rw [bvUnsorted, List.map_map]
  rfl

theorem cardIsCheapest_of_cheapest_falsy {cheapest : Option ℚ} (h : truthy cheapest = false)
    (e : Etf) : cardIsCheapest cheapest e = false := by
  unfold cardIsCheapest
  rw [h, Bool.and_false]
  rfl

theorem renderCard_of_cheapest_falsy {cheapest : Option ℚ}
    (h : truthy cheapest = false) (pd : List (String × PriceDiff)) (e : Etf) :
    renderCard cheapest pd e =
      Except.ok { symbol := e.symbol
                  isCheapest := false
                  perGramPrice := cardPerGram e
                  shownPrice := if truthy (cardPerGram e) then cardPerGram e else e.current_price
                  changeShown := e.change_percent.getD 0
                  diffBlock := none } := by
  have hic : cardIsCheapest cheapest e = false := cardIsCheapest_of_cheapest_falsy h e
  rw [renderCard, hic]
  cases hpd : pd.lookup e.symbol with
  | none => rfl
  | some entry =>
      rw [h, Bool.and_false]
      rfl

theorem renderCardsAux_of_cheapest_falsy {cheapest : Option ℚ}
    (h : truthy cheapest = false) (pd : List (String × PriceDiff)) :
    ∀ l : List Etf, ∃ views, renderCardsAux cheapest pd l = Except.ok views ∧
      ∀ v ∈ views, v.isCheapest = false := by
  intro l
  induction l with
  | nil => exact ⟨[], rfl, by simp⟩
  | cons e rest ih =>
      rcases ih with ⟨views, hok, hflags⟩
      refine ⟨{ symbol := e.symbol
                isCheapest := false
                perGramPrice := cardPerGram e
                shownPrice := if truthy (cardPerGram e) then cardPerGram e else e.current_price
                changeShown := e.change_percent.getD 0
                diffBlock := none } :: views, ?_, ?_⟩
      · rw [renderCardsAux, renderCard_of_cheapest_falsy h pd e, hok]
      · intro v hv
        rcases List.mem_cons.mp hv with rfl | hv'
        · rfl
        · exact hflags v hv'

theorem renderCard_symbol {cheapest : Option ℚ} {pd : List (String × PriceDiff)} {e : Etf}
    {v : CardView} (hcard : renderCard cheapest pd e = Except.ok v) : v.symbol = e.symbol := by
  unfold renderCard at hcard
  cases hpd : pd.lookup e.symbol with
  | none =>
      rw [hpd] at hcard
      rw [← Except.ok.inj hcard]
  | some entry =>
      rw [hpd] at hcard
      dsimp only at hcard
      by_cases hg : (truthy (if truthy entry.per_gram_price then entry.per_gram_price else none)
          && truthy cheapest) = true
      · rw [if_pos hg] at hcard
        cases hpct : entry.percent with
        | none => exact Except.noConfusion (hpct ▸ hcard)
        | some q =>
            rw [hpct] at hcard
            rw [← Except.ok.inj hcard]
      · rw [if_neg hg] at hcard
        rw [← Except.ok.inj hcard]

theorem renderCardsAux_map_symbol (cheapest : Option ℚ) (pd : List (String × PriceDiff)) :
    ∀ (l : List Etf) (views : List CardView),
      renderCardsAux cheapest pd l = Except.ok views →
        views.map (fun v => v.symbol) = l.map (fun e => e.symbol) := by
  intro l
  induction l with
  | nil =>
      intro views h
      rw [renderCardsAux] at h
      cases h
      rfl
  | cons e rest ih =>
      intro views h
      rw [renderCardsAux] at h
      cases hcard : renderCard cheapest pd e with
      | error s => rw [hcard] at h; cases h
      | ok v =>
          rw [hcard] at h
          cases hrest : renderCardsAux cheapest pd rest with
          | error s => rw [hrest] at h; cases h
          | ok vs =>
              rw [hrest] at h
              cases h
              rw [List.map_cons, List.map_cons, ih vs hrest]
              rw [renderCard_symbol hcard]

/-! ## Claims -/

/-- C10: the ZGOLD-to-GLDTR base value (GLDTR current_price divided by
ZGOLD current_price) is some v exactly when both funds are found in the
input and both have strictly positive current_price, and then
v = gldtr.current_price / zgold.current_price; in every other case it is
none, so the division is never performed with a zero, negative or absent
denominator. -/
theorem claim10_baseValue_guard (d : CompareData) (v : ℚ) :
    baseValue d = some v ↔
      ∃ z g zp gp,
        d.all_etfs.find? (fun e => e.symbol == "ZGOLD") = some z ∧
        d.all_etfs.find? (fun e => e.symbol == "GLDTR") = some g ∧
        z.current_price = some zp ∧ 0 < zp ∧
        g.current_price = some gp ∧ 0 < gp ∧ v = gp / zp := by
  constructor
  · intro h
    unfold baseValue at h
    cases hz : d.all_etfs.find? (fun e => e.symbol == "ZGOLD") with
    | none => rw [hz] at h; exact Option.noConfusion h
    | some z =>
        rw [hz] at h
        cases hg : d.all_etfs.find? (fun e => e.symbol == "GLDTR") with
        | none => rw [hg] at h; exact Option.noConfusion h
        | some g =>
            rw [hg] at h
            dsimp only at h
            by_cases hc : (jgt z.current_price 0 && jgt g.current_price 0) = true
            · rw [if_pos hc] at h
              have hand : jgt z.current_price 0 = true ∧ jgt g.current_price 0 = true := by
                simpa [Bool.and_eq_true] using hc
              rcases hand with ⟨hz0, hg0⟩
              cases hzp : z.current_price with
              | none => rw [hzp] at hz0; exact Bool.noConfusion hz0
              | some zp =>
                  cases hgp : g.current_price with
                  | none => rw [hgp] at hg0; exact Bool.noConfusion hg0
                  | some gp =>
                      rw [hzp] at hz0
                      rw [hgp] at hg0
                      have hzp0 : 0 < zp := by simpa [jgt] using hz0
                      have hgp0 : 0 < gp := by simpa [jgt] using hg0
                      rw [hzp, hgp] at h
                      rw [jdiv] at h
                      rw [if_neg (by exact ne_of_gt hzp0)] at h
                      exact ⟨z, g, zp, gp, rfl, rfl, hzp, hzp0, hgp, hgp0,
                        (Option.some.inj h).symm⟩
            · rw [if_neg hc] at h
              exact Option.noConfusion h
  · rintro ⟨z, g, zp, gp, hz, hg, hzp, hzp0, hgp, hgp0, rfl⟩
    unfold baseValue
    rw [hz, hg]
    dsimp only
    have hc : (jgt z.current_price 0 && jgt g.current_price 0) = true := by
      rw [hzp, hgp]
      simp [jgt, hzp0, hgp0]
    rw [if_pos hc, hzp, hgp, jdiv, if_neg (by exact ne_of_gt hzp0)]

/-- C6: the comparison pipeline is a pure function of the payload — two
runs on identical input produce the identical per-gram ranking, table
rows, numeric deltas and rendered output. -/
theorem claim6_determinism (d1 d2 : CompareData) (h : d1 = d2) :
    etfsWithPerGram d1 = etfsWithPerGram d2 ∧
    etfsWithBaseValue d1 = etfsWithBaseValue d2 ∧
    tableRows d1 = tableRows d2 ∧
    summaryDiffs d1 = summaryDiffs d2 ∧
    renderAll d1 = renderAll d2 := by
  subst h
  exact ⟨rfl, rfl, rfl, rfl, rfl⟩

/-- Witness for C6 at a concrete payload. -/
theorem claim6_witness :
    etfsWithPerGram dTwo = etfsWithPerGram dTwo ∧
    etfsWithBaseValue dTwo = etfsWithBaseValue dTwo ∧
    tableRows dTwo = tableRows dTwo ∧
    summaryDiffs dTwo = summaryDiffs dTwo ∧
    renderAll dTwo = renderAll dTwo :=
  claim6_determinism dTwo dTwo rfl

/-- C5: for every ranked fund, the per-gram price times the gold backing
reconstructs the current price exactly over rational arithmetic. -/
theorem claim5_roundtrip (d : CompareData) (entry : BVEntry)
    (h : entry ∈ etfsWithBaseValue d) :
    ∃ p g q, entry.etf.current_price = some p ∧ entry.baseValue = some g ∧
      entry.perGramPrice = some q ∧ q * g = p := by
  rcases bv_entry_fields h with ⟨p, g, hp, _, _, hg0, hbv, hpg, _⟩
  exact ⟨p, g, p / g, hp, hbv, hpg, div_mul_cancel₀ p (ne_of_gt hg0)⟩

/-- C4: every site that shows a per-gram price computes it as
current_price / gold_backing_grams: the entries of etfsWithPerGram, the
entries of etfsWithBaseValue (used by the table, the summary and the
formula examples), the recomputation in the table row loop, and the card
loop all agree. -/
theorem claim4_perGram_consistency (d : CompareData) :
    (∀ entry ∈ etfsWithPerGram d,
        entry.perGramPrice = jdiv entry.etf.current_price entry.etf.gold_backing_grams) ∧
    (∀ entry ∈ etfsWithBaseValue d,
        entry.perGramPrice = jdiv entry.etf.current_price entry.etf.gold_backing_grams) ∧
    (∀ (best : BVEntry) (i : Nat) (item : BVEntry),
        (mkTableRow best i item).perGramPrice =
          jdiv item.etf.current_price item.etf.gold_backing_grams) ∧
    (∀ e : Etf, truthy e.gold_backing_grams = true →
        cardPerGram e = jdiv e.current_price e.gold_backing_grams) := by
  refine ⟨?_, ?_, ?_, ?_⟩
  · intro entry hmem
    rcases List.mem_map.mp ((List.mem_insertionSort pgmLe).mp hmem) with ⟨e, _, rfl⟩
    rfl
  · intro entry hmem
    rcases mem_bvUnsorted.mp (mem_etfsWithBaseValue.mp hmem) with ⟨e, _, _, rfl⟩
    rfl
  · intro best i item
    rfl
  · intro e h
    unfold cardPerGram
    rw [h]
    rfl

theorem mkTableRow_absolute (best : BVEntry) (k : Nat) (item : BVEntry) :
    (mkTableRow best k item).priceDiffAbsolute =
      if (k == 0) = true then some 0
      else jsub (jdiv item.etf.current_price item.etf.gold_backing_grams)
        best.perGramPrice := rfl

theorem mkTableRow_percent (best : BVEntry) (k : Nat) (item : BVEntry) :
    (mkTableRow best k item).priceDiffPercent =
      if (k == 0) = true then some 0
      else jmul (jdiv (jsub (jdiv item.etf.current_price item.etf.gold_backing_grams)
        best.perGramPrice) best.perGramPrice) 100 := rfl

/-- C3: with a nonempty ranking, every ranked fund's per-gram price is at
least the head's; the best row's absolute and percent differences are 0;
and every row's absolute and percent differences are present and
nonnegative. -/
theorem claim3_cheapest_invariant (d : CompareData) (best : BVEntry) (rest : List BVEntry)
    (h : etfsWithBaseValue d = best :: rest) :
    (∀ item ∈ etfsWithBaseValue d,
        ∃ bq iq, best.perGramPrice = some bq ∧ item.perGramPrice = some iq ∧ bq ≤ iq) ∧
    (∀ row ∈ tableRows d, row.isBest = true →
        row.priceDiffPercent = some 0 ∧ row.priceDiffAbsolute = some 0) ∧
    (∀ row ∈ tableRows d,
        ∃ a q, row.priceDiffAbsolute = some a ∧ 0 ≤ a ∧
          row.priceDiffPercent = some q ∧ 0 ≤ q) := by
  have hbestmem : best ∈ etfsWithBaseValue d := by
    rw [h]
    exact List.mem_cons_self best rest
  rcases bv_entry_fields hbestmem with ⟨bp, bg, hbp, hbp0, hbg, hbg0, hbbv, hbpg, hbq0⟩
  refine ⟨?_, ?_, ?_⟩
  · intro item hmem
    rcases bv_entry_fields hmem with ⟨ip, ig, hip, hip0, hig, hig0, _, hipg, _⟩
    have hle : optLe best.perGramPrice item.perGramPrice :=
      head_le_of_etfsWithBaseValue h item hmem
    rw [hbpg, hipg] at hle
    exact ⟨bp / bg, ip / ig, hbpg, hipg, hle⟩
  · intro row hrow hflag
    rcases tableRows_mem h hrow with heq | ⟨k, item, hkmem, heq, hk⟩
    · subst heq
      exact ⟨rfl, rfl⟩
    · subst heq
      rw [mkTableRow_isBest] at hflag
      have : k = 0 := by simpa using hflag
      omega
  · intro row hrow
    rcases tableRows_mem h hrow with heq | ⟨k, item, hkmem, heq, hk⟩
    · subst heq
      exact ⟨0, 0, rfl, le_refl 0, rfl, le_refl 0⟩
    · subst heq
      have hk0 : (k == 0) = false := by
        have : k ≠ 0 := by omega
        simp [this]
      have hitemmem : item ∈ etfsWithBaseValue d := by
        rw [h]
        exact List.mem_cons_of_mem best hkmem
      rcases bv_entry_fields hitemmem with ⟨ip, ig, hip, hip0, hig, hig0, _, hipg, _⟩
      have hle : optLe best.perGramPrice item.perGramPrice :=
        head_le_of_etfsWithBaseValue h item hitemmem
      rw [hbpg, hipg] at hle
      have hle2 : bp / bg ≤ ip / ig := hle
      refine ⟨ip / ig - bp / bg, (ip / ig - bp / bg) / (bp / bg) * 100, ?_, ?_, ?_, ?_⟩
      · rw [mkTableRow_absolute, hk0]
        simp [hip, hig, hbpg, jdiv, jsub, ne_of_gt hig0]
      · exact sub_nonneg.mpr hle2
      · rw [mkTableRow_percent, hk0]
        simp [hip, hig, hbpg, jdiv, jsub, jmul, ne_of_gt hig0, ne_of_gt hbq0]
      · exact mul_nonneg (div_nonneg (sub_nonneg.mpr hle2) (le_of_lt hbq0)) (by norm_num)

/-- C1 (amended): in the comparison table exactly one row is marked best,
and the head of the ranking is the first minimum of the qualifying funds
in input order: it is one of them, no fund beats it, and every fund before
it in input order is strictly more expensive (so on ties the first
occurrence wins). -/
theorem claim1_table_unique_best (d : CompareData) (h : etfsWithBaseValue d ≠ []) :
    (tableRows d).countP (fun row => row.isBest) = 1 ∧
    ∃ m, (etfsWithBaseValue d).head? = some m ∧ m ∈ bvUnsorted d ∧
      (∀ x ∈ bvUnsorted d, bvLe m x) ∧
      ∃ l₁ l₂, bvUnsorted d = l₁ ++ m :: l₂ ∧ ∀ x ∈ l₁, ¬ bvLe x m := by
  cases hbv : etfsWithBaseValue d with
  | nil => exact absurd hbv h
  | cons best rest =>
      have hfm : firstMinBy bvLe (bvUnsorted d) = some best := by
        rw [← head_insertionSort bvLe (bvUnsorted d)]
        show (etfsWithBaseValue d).head? = some best
        rw [hbv]
        rfl
      refine ⟨tableRows_countP d hbv, best, rfl, ?_, ?_, ?_⟩
      · exact firstMinBy_mem bvLe _ best hfm
      · exact firstMinBy_min bvLe _ best hfm
      · exact firstMinBy_first bvLe _ best hfm

/-- C2 (amended): a fund whose gold_backing_grams is absent or zero never
enters either ranked list and is never marked cheapest; a fund with
negative backing is excluded from the table ranking (but, per the
counterexample, not from etfsWithPerGram or the card cheapest mark). -/
theorem claim2_backing_exclusion (d : CompareData) (e : Etf) :
    ((e.gold_backing_grams = none ∨ e.gold_backing_grams = some 0) →
      (∀ entry ∈ etfsWithPerGram d, entry.etf ≠ e) ∧
      (∀ entry ∈ etfsWithBaseValue d, entry.etf ≠ e) ∧
      cardIsCheapest (cheapestPerGramPrice d) e = false) ∧
    (∀ g : ℚ, e.gold_backing_grams = some g → g < 0 →
      ∀ entry ∈ etfsWithBaseValue d, entry.etf ≠ e) := by
  constructor
  · intro hb
    have hfalsy : truthy e.gold_backing_grams = false := by
      rcases hb with hb | hb <;> simp [truthy, hb]
    refine ⟨?_, ?_, ?_⟩
    · intro entry hmem heq
      rcases List.mem_map.mp ((List.mem_insertionSort pgmLe).mp hmem) with ⟨e', hf, rfl⟩
      have htr : truthy e'.gold_backing_grams = true := (List.mem_filter.mp hf).2
      rw [show e' = e from heq] at htr
      rw [hfalsy] at htr
      exact Bool.noConfusion htr
    · intro entry hmem heq
      rcases mem_bvUnsorted.mp (mem_etfsWithBaseValue.mp hmem) with ⟨e', _, hq, rfl⟩
      rcases qualifies_fields hq with ⟨p, g, _, _, hg, hg0⟩
      rw [show (mkBVEntry e').etf = e' from rfl] at heq
      rw [heq] at hg
      rcases hb with hb | hb
      · rw [hb] at hg
        exact Option.noConfusion hg
      · rw [hb] at hg
        have : (0 : ℚ) = g := Option.some.inj hg
        rw [← this] at hg0
        exact absurd hg0 (lt_irrefl 0)
    · unfold cardIsCheapest
      rw [hfalsy, Bool.false_and]
      rfl
  · intro g hg hgneg entry hmem heq
    rcases mem_bvUnsorted.mp (mem_etfsWithBaseValue.mp hmem) with ⟨e', _, hq, rfl⟩
    rcases qualifies_fields hq with ⟨p, g', _, _, hg', hg'0⟩
    rw [show (mkBVEntry e').etf = e' from rfl] at heq
    rw [heq] at hg'
    rw [hg] at hg'
    have : g = g' := Option.some.inj hg'
    rw [← this] at hg'0
    exact absurd hgneg (not_lt_of_gt hg'0)

/-- C7 (amended): the card list is purely derivative of the all_etfs
sequence (same order), but the table re-derives ranking locally: its row
order is a permutation of the qualifying funds obtained by sorting on the
locally recomputed per-gram price, with the cheapest re-selected as the
sorted head. -/
theorem claim7_presentation (d : CompareData) :
    (∀ views, renderCards d = Except.ok views →
        views.map (fun v => v.symbol) = d.all_etfs.map (fun e => e.symbol)) ∧
    List.Perm ((tableRows d).map (fun row => row.symbol))
      ((d.all_etfs.filter qualifies).map (fun e => e.symbol)) ∧
    List.Sorted bvLe (etfsWithBaseValue d) := by
  refine ⟨?_, ?_, sorted_etfsWithBaseValue d⟩
  · intro views hok
    exact renderCardsAux_map_symbol _ _ _ views hok
  · rw [tableRows_map_symbol, ← bvUnsorted_map_symbol]
    exact List.Perm.map _ (List.perm_insertionSort bvLe (bvUnsorted d))

/-- C9 (amended): with no qualifying fund the table area shows the no-data
message; if moreover no fund has nonzero backing, no cheapest per-gram
price exists and the card loop completes without fault marking no card
cheapest. -/
theorem claim9_no_qualifier (d : CompareData)
    (hq : ∀ e ∈ d.all_etfs, qualifies e = false) :
    renderTable d = TableView.noData ∧
    ((∀ e ∈ d.all_etfs, truthy e.gold_backing_grams = false) →
      cheapestPerGramPrice d = none ∧
      ∃ views, renderCards d = Except.ok views ∧ ∀ v ∈ views, v.isCheapest = false) := by
  constructor
  · have hfilter : d.all_etfs.filter qualifies = [] := by
      rw [List.filter_eq_nil_iff]
      intro e he
      rw [hq e he]
      simp
    have hsorted : etfsWithBaseValue d = [] := by
      rw [etfsWithBaseValue, bvUnsorted, hfilter]
      rfl
    rw [renderTable, hsorted]
  · intro hb
    have hfilter : d.all_etfs.filter (fun e => truthy e.gold_backing_grams) = [] := by
      rw [List.filter_eq_nil_iff]
      intro e he
      rw [hb e he]
      simp
    have hpg : etfsWithPerGram d = [] := by
      rw [etfsWithPerGram, hfilter]
      rfl
    have hcp : cheapestPerGramPrice d = none := by
      rw [cheapestPerGramPrice, hpg]
    refine ⟨hcp, ?_⟩
    have hfalsy : truthy (cheapestPerGramPrice d) = false := by
      rw [hcp]
      rfl
    exact renderCardsAux_of_cheapest_falsy hfalsy d.price_difference d.all_etfs

/-- C1 counterexample: with two qualifying funds tied at 50 TL/gram, the
card loop marks both as cheapest, so more than one fund carries the
cheapest mark in the rendered result. -/
theorem claim1_counterexample :
    dTie.all_etfs.map (cardIsCheapest (cheapestPerGramPrice dTie)) = [true, true] := by
  have hpg : etfsWithPerGram dTie =
      [{ etf := mkEtf "AAA" (some 100) (some 2), perGramPrice := some 50 },
       { etf := mkEtf "BBB" (some 100) (some 2), perGramPrice := some 50 }] := by
    norm_num [etfsWithPerGram, dTie, mkData, mkEtf, truthy, jdiv, List.insertionSort,
      List.orderedInsert, pgmLe, optLe, List.filter, List.map]
  have hcheap : cheapestPerGramPrice dTie = some 50 := by
    unfold cheapestPerGramPrice
    rw [hpg]
  have htr : truthy (mkEtf "AAA" (some 100) (some 2)).gold_backing_grams = true := by
    norm_num [mkEtf, truthy]
  have htr50 : truthy (some (50 : ℚ)) = true := by norm_num [truthy]
  have hcg : cardPerGram (mkEtf "AAA" (some 100) (some 2)) = some 50 := by
    unfold cardPerGram
    rw [htr]
    norm_num [mkEtf, jdiv]
  have hcard : cardIsCheapest (some 50) (mkEtf "AAA" (some 100) (some 2)) = true := by
    unfold cardIsCheapest
    rw [htr, htr50, hcg]
    norm_num
  have htrB : truthy (mkEtf "BBB" (some 100) (some 2)).gold_backing_grams = true := by
    norm_num [mkEtf, truthy]
  have hcgB : cardPerGram (mkEtf "BBB" (some 100) (some 2)) = some 50 := by
    unfold cardPerGram
    rw [htrB]
    norm_num [mkEtf, jdiv]
  have hcardB : cardIsCheapest (some 50) (mkEtf "BBB" (some 100) (some 2)) = true := by
    unfold cardIsCheapest
    rw [htrB, htr50, hcgB]
    norm_num
  rw [hcheap]
  show List.map (cardIsCheapest (some 50))
      [mkEtf "AAA" (some 100) (some 2), mkEtf "BBB" (some 100) (some 2)] = [true, true]
  rw [List.map_cons, List.map_cons, List.map_nil, hcard, hcardB]

/-- C2 counterexample: a fund with negative gold_backing_grams enters
etfsWithPerGram (the cheapest-selection list) and is marked cheapest by
the card loop. -/
theorem claim2_counterexample :
    etfsWithPerGram dNegBack = [{ etf := eNegBack, perGramPrice := some (-100) }] ∧
    cardIsCheapest (cheapestPerGramPrice dNegBack) eNegBack = true := by
  have hpg : etfsWithPerGram dNegBack = [{ etf := eNegBack, perGramPrice := some (-100) }] := by
    norm_num [etfsWithPerGram, dNegBack, eNegBack, mkData, mkEtf, truthy, jdiv,
      List.insertionSort, List.orderedInsert, List.filter, List.map]
  have hcheap : cheapestPerGramPrice dNegBack = some (-100) := by
    unfold cheapestPerGramPrice
    rw [hpg]
  have htr : truthy eNegBack.gold_backing_grams = true := by
    norm_num [eNegBack, mkEtf, truthy]
  have htrc : truthy (some (-100 : ℚ)) = true := by norm_num [truthy]
  have hcg : cardPerGram eNegBack = some (-100) := by
    unfold cardPerGram
    rw [htr]
    norm_num [eNegBack, mkEtf, jdiv]
  have hcard : cardIsCheapest (some (-100)) eNegBack = true := by
    unfold cardIsCheapest
    rw [htr, htrc, hcg]
    norm_num
  refine ⟨hpg, ?_⟩
  rw [hcheap, hcard]

theorem mkBVEntry_etf (e : Etf) : (mkBVEntry e).etf = e := rfl

theorem mkBVEntry_perGram (e : Etf) :
    (mkBVEntry e).perGramPrice = jdiv e.current_price e.gold_backing_grams := rfl

/-- C7 counterexample: on input where the cheaper fund comes second, the
table displays the funds in a locally re-sorted order that differs from
the all_etfs input order, and a cheapest fund is re-selected locally. -/
theorem claim7_counterexample :
    (dTwo.all_etfs.filter qualifies).map (fun e => e.symbol) = ["AAA", "BBB"] ∧
    (tableRows dTwo).map (fun row => row.symbol) = ["BBB", "AAA"] ∧
    cheapestEtfSymbol dTwo = some "BBB" := by
  have hbv : etfsWithBaseValue dTwo =
      [mkBVEntry (mkEtf "BBB" (some 100) (some 2)), mkBVEntry (mkEtf "AAA" (some 120) (some 2))] := by
    norm_num [etfsWithBaseValue, bvUnsorted, dTwo, mkData, qualifies, jgt, truthy, mkEtf,
      List.filter, List.map, List.insertionSort, List.orderedInsert, bvLe, optLe,
      mkBVEntry_perGram, jdiv]
  refine ⟨?_, ?_, ?_⟩
  · norm_num [dTwo, mkData, qualifies, jgt, truthy, mkEtf, List.filter, List.map]
  · rw [tableRows_map_symbol, hbv]
    norm_num [mkBVEntry_etf, mkEtf, List.map]
  · have hpg : etfsWithPerGram dTwo =
        [{ etf := mkEtf "BBB" (some 100) (some 2), perGramPrice := some 50 },
         { etf := mkEtf "AAA" (some 120) (some 2), perGramPrice := some 60 }] := by
      norm_num [etfsWithPerGram, dTwo, mkData, mkEtf, truthy, jdiv, List.insertionSort,
        List.orderedInsert, pgmLe, optLe, List.filter, List.map]
    unfold cheapestEtfSymbol
    rw [hpg]
    rfl

/-- C8: on a payload whose price_difference entry for a qualifying fund
has per_gram_price but no percent field, the card loop dereferences the
absent percent (app.js line 451) and the rendering throws instead of
omitting the field. -/
theorem claim8_percent_crash :
    renderCards dNoPercent = Except.error "TypeError: cannot read toFixed of undefined" := by
  have hpg : etfsWithPerGram dNoPercent =
      [{ etf := mkEtf "AAA" (some 100) (some 2), perGramPrice := some 50 }] := by
    norm_num [etfsWithPerGram, dNoPercent, mkData, mkEtf, truthy, jdiv, List.insertionSort,
      List.orderedInsert, List.filter, List.map]
  have hcheap : cheapestPerGramPrice dNoPercent = some 50 := by
    unfold cheapestPerGramPrice
    rw [hpg]
  have hcard : renderCard (some 50) [("AAA", pdNoPercent)] (mkEtf "AAA" (some 100) (some 2)) =
      Except.error "TypeError: cannot read toFixed of undefined" := by
    unfold renderCard
    have hlookup : List.lookup (mkEtf "AAA" (some 100) (some 2)).symbol
        [("AAA", pdNoPercent)] = some pdNoPercent := rfl
    rw [hlookup]
    dsimp only
    have hg : (truthy (if truthy pdNoPercent.per_gram_price = true
        then pdNoPercent.per_gram_price else none) && truthy (some (50 : ℚ))) = true := by
      norm_num [pdNoPercent, truthy]
    rw [if_pos hg]
    rfl
  unfold renderCards
  rw [hcheap]
  show renderCardsAux (some 50) [("AAA", pdNoPercent)] [mkEtf "AAA" (some 100) (some 2)] = _
  rw [renderCardsAux, hcard]

/-- C9 counterexample: with a single fund of negative price and positive
backing no fund qualifies and the table shows the no-data message, yet the
card loop still marks that fund cheapest. -/
theorem claim9_counterexample :
    dNegPrice.all_etfs.filter qualifies = [] ∧
    renderTable dNegPrice = TableView.noData ∧
    Except.map (List.map (fun v => v.isCheapest)) (renderCards dNegPrice) =
      Except.ok [true] := by
  have hfq : dNegPrice.all_etfs.filter qualifies = [] := by
    norm_num [dNegPrice, eNegPrice, mkData, mkEtf, qualifies, jgt, truthy, List.filter]
  have hbv : etfsWithBaseValue dNegPrice = [] := by
    unfold etfsWithBaseValue bvUnsorted
    rw [hfq]
    rfl
  have hpg : etfsWithPerGram dNegPrice =
      [{ etf := eNegPrice, perGramPrice := some (-5 / 2) }] := by
    norm_num [etfsWithPerGram, dNegPrice, eNegPrice, mkData, mkEtf, truthy, jdiv,
      List.insertionSort, List.orderedInsert, List.filter, List.map]
  have hcheap : cheapestPerGramPrice dNegPrice = some (-5 / 2) := by
    unfold cheapestPerGramPrice
    rw [hpg]
  have htr : truthy eNegPrice.gold_backing_grams = true := by
    norm_num [eNegPrice, mkEtf, truthy]
  have htrc : truthy (some (-5 / 2 : ℚ)) = true := by norm_num [truthy]
  have hcg : cardPerGram eNegPrice = some (-5 / 2) := by
    unfold cardPerGram
    rw [htr]
    norm_num [eNegPrice, mkEtf, jdiv]
  have hcard : cardIsCheapest (some (-5 / 2)) eNegPrice = true := by
    unfold cardIsCheapest
    rw [htr, htrc, hcg]
    norm_num
  refine ⟨hfq, ?_, ?_⟩
  · unfold renderTable
    rw [hbv]
  · have hone : Except.map (List.map (fun v => v.isCheapest)) (renderCards dNegPrice) =
        Except.ok [cardIsCheapest (cheapestPerGramPrice dNegPrice) eNegPrice] := rfl
    rw [hone, hcheap, hcard]

/-- Witness for C9 at the empty payload. -/
theorem claim9_witness :
    renderTable dEmpty = TableView.noData ∧ cheapestPerGramPrice dEmpty = none := by
  have h := claim9_no_qualifier dEmpty (by intro e he; exact absurd he (List.not_mem_nil e))
  exact ⟨h.1, (h.2 (by intro e he; exact absurd he (List.not_mem_nil e))).1⟩

/-- Witness for C7 at the empty payload. -/
theorem claim7_witness :
    ([] : List CardView).map (fun v => v.symbol) = dEmpty.all_etfs.map (fun e => e.symbol) :=
  (claim7_presentation dEmpty).1 [] rfl

/-- Witness for C10 at a payload holding ZGOLD at 30 and GLDTR at 40. -/
theorem claim10_witness : baseValue dZG = some (4 / 3) :=
  (claim10_baseValue_guard dZG (4 / 3)).mpr
    ⟨mkEtf "ZGOLD" (some 30) (some 1), mkEtf "GLDTR" (some 40) (some 1), 30, 40,
      by decide, by decide, rfl, by norm_num, rfl, by norm_num, by norm_num⟩

/-- Witness for C4: the card per-gram site agrees with the raw formula on
a concrete fund. -/
theorem claim4_witness :
    cardPerGram (mkEtf "AAA" (some 120) (some 2)) =
      jdiv (mkEtf "AAA" (some 120) (some 2)).current_price
        (mkEtf "AAA" (some 120) (some 2)).gold_backing_grams :=
  (claim4_perGram_consistency dTwo).2.2.2 _ (by norm_num [mkEtf, truthy])

/-- Witness for C5 at a concrete ranked fund. -/
theorem claim5_witness :
    ∃ p g q, (mkBVEntry (mkEtf "BBB" (some 100) (some 2))).etf.current_price = some p ∧
      (mkBVEntry (mkEtf "BBB" (some 100) (some 2))).baseValue = some g ∧
      (mkBVEntry (mkEtf "BBB" (some 100) (some 2))).perGramPrice = some q ∧ q * g = p :=
  claim5_roundtrip dTwo _
    (mem_etfsWithBaseValue.mpr (mem_bvUnsorted.mpr
      ⟨mkEtf "BBB" (some 100) (some 2),
        List.mem_cons_of_mem _ (List.mem_cons_self _ _),
        by norm_num [qualifies, jgt, truthy, mkEtf], rfl⟩))

/-- Witness for C2: a fund with absent backing is never marked cheapest. -/
theorem claim2_witness :
    cardIsCheapest (cheapestPerGramPrice dTwo) (mkEtf "CCC" none none) = false :=
  ((claim2_backing_exclusion dTwo (mkEtf "CCC" none none)).1 (Or.inl rfl)).2.2

/-- Witness for C1: on a two-fund payload the table has exactly one best
row. -/
theorem claim1_witness : (tableRows dTwo).countP (fun row => row.isBest) = 1 := by
  have hbv : etfsWithBaseValue dTwo =
      [mkBVEntry (mkEtf "BBB" (some 100) (some 2)), mkBVEntry (mkEtf "AAA" (some 120) (some 2))] := by
    norm_num [etfsWithBaseValue, bvUnsorted, dTwo, mkData, qualifies, jgt, truthy, mkEtf,
      List.filter, List.map, List.insertionSort, List.orderedInsert, bvLe, optLe,
      mkBVEntry_perGram, jdiv]
  exact (claim1_table_unique_best dTwo (by rw [hbv]; simp)).1

/-- Witness for C3: the best row of a concrete table has zero differences. -/
theorem claim3_witness :
    (mkTableRow (mkBVEntry (mkEtf "BBB" (some 100) (some 2))) 0
        (mkBVEntry (mkEtf "BBB" (some 100) (some 2)))).priceDiffPercent = some 0 ∧
    (mkTableRow (mkBVEntry (mkEtf "BBB" (some 100) (some 2))) 0
        (mkBVEntry (mkEtf "BBB" (some 100) (some 2)))).priceDiffAbsolute = some 0 := by
  have hbv : etfsWithBaseValue dTwo =
      mkBVEntry (mkEtf "BBB" (some 100) (some 2)) ::
        [mkBVEntry (mkEtf "AAA" (some 120) (some 2))] := by
    norm_num [etfsWithBaseValue, bvUnsorted, dTwo, mkData, qualifies, jgt, truthy, mkEtf,
      List.filter, List.map, List.insertionSort, List.orderedInsert, bvLe, optLe,
      mkBVEntry_perGram, jdiv]
  have hrows : tableRows dTwo =
      mkTableRow (mkBVEntry (mkEtf "BBB" (some 100) (some 2))) 0
          (mkBVEntry (mkEtf "BBB" (some 100) (some 2))) ::
        tableRowsAux (mkBVEntry (mkEtf "BBB" (some 100) (some 2))) 1
          [mkBVEntry (mkEtf "AAA" (some 120) (some 2))] := by
    unfold tableRows
    rw [hbv]
    dsimp only
    rw [tableRowsAux]
  exact (claim3_cheapest_invariant dTwo _ _ hbv).2.1 _
    (by rw [hrows]; exact List.mem_cons_self _ _) rfl
